import Mathlib

/-!
Shallow embedding of the three gl-react Julia fragment shaders
(src/julia-fractal.tsx, src/julia-image-fractal.tsx, src/julia-field-fractal.tsx)
over exact real arithmetic.  GLSL floats are modelled as real numbers, the
sampler2D texture as an abstract function from coordinates to RGB, and the
bounded GLSL for-loop as fuel-based structural recursion.
-/

noncomputable section

namespace JuliaGL

/-- A GLSL vec2 over the reals. -/
@[ext]
structure Vec2 where
  x : ℝ
  y : ℝ

/-- A GLSL vec3 over the reals. -/
@[ext]
structure Vec3 where
  x : ℝ
  y : ℝ
  z : ℝ

/-- A GLSL vec4 over the reals (used for gl_FragColor, alpha in field w). -/
@[ext]
structure Vec4 where
  x : ℝ
  y : ℝ
  z : ℝ
  w : ℝ

/-- GLSL mix(a, b, t) = a * (1 - t) + b * t. -/
def glslMix (a b t : ℝ) : ℝ := a * (1 - t) + b * t

/-- GLSL clamp(x, lo, hi) = min(max(x, lo), hi). -/
def glslClamp (x lo hi : ℝ) : ℝ := min (max x lo) hi

/-- GLSL floor as a real-valued function. -/
def glslFloor (x : ℝ) : ℝ := (⌊x⌋ : ℝ)

/-- GLSL fract(x) = x - floor(x). -/
def glslFract (x : ℝ) : ℝ := x - glslFloor x

/-- GLSL mod(x, y) = x - y * floor(x / y). -/
def glslMod (x y : ℝ) : ℝ := x - y * glslFloor (x / y)

/-- GLSL dot on vec2. -/
def dot2 (a b : Vec2) : ℝ := a.x * b.x + a.y * b.y

/-- The built-in two-argument GLSL arctangent: atan(a, b) returns the angle
whose tangent is a / b, with the quadrant determined by the signs of both
arguments, i.e. the principal argument of the point (b, a); range (-pi, pi].
This is the primitive the shaders call as atan(x, y) and atan(y, x). -/
def glslAtan (a b : ℝ) : ℝ := Complex.arg ⟨b, a⟩

/-- The custom atan2 defined identically in all three shaders:
float s = (abs(x) > abs(y)) ? 1.0 : 0.0;
return mix(3.14159265358979/2.0 - atan(x,y), atan(y,x), s);
(we model the literal 3.14159265358979 as the exact pi of the reals). -/
def atan2 (y x : ℝ) : ℝ :=
  glslMix (Real.pi / 2 - glslAtan x y) (glslAtan y x) (if |y| < |x| then 1 else 0)

/-- hsv2rgb from the shaders:
vec4 K = vec4(1.0, 2.0/3.0, 1.0/3.0, 3.0);
vec3 p = abs(fract(c.xxx + K.xyz) * 6.0 - K.www);
return c.z * mix(K.xxx, clamp(p - K.xxx, 0.0, 1.0), c.y); -/
def hsv2rgb (c : Vec3) : Vec3 :=
  let px := |glslFract (c.x + 1) * 6 - 3|
  let py := |glslFract (c.x + 2/3) * 6 - 3|
  let pz := |glslFract (c.x + 1/3) * 6 - 3|
  ⟨c.z * glslMix 1 (glslClamp (px - 1) 0 1) c.y,
   c.z * glslMix 1 (glslClamp (py - 1) 0 1) c.y,
   c.z * glslMix 1 (glslClamp (pz - 1) 0 1) c.y⟩

/-- rgb2hsv from the field shader:
vec4 K = vec4(0.0, -1.0/3.0, 2.0/3.0, -1.0);
vec4 p = c.g < c.b ? vec4(c.bg, K.wz) : vec4(c.gb, K.xy);
vec4 q = c.r < p.x ? vec4(p.xyw, c.r) : vec4(c.r, p.yzx);
float d = q.x - min(q.w, q.y);
float e = 1.0e-10;
return vec3(abs(q.z + (q.w - q.y) / (6.0 * d + e)), d / (q.x + e), q.x); -/
def rgb2hsv (c : Vec3) : Vec3 :=
  let p : Vec4 := if c.y < c.z then ⟨c.z, c.y, -1, 2/3⟩ else ⟨c.y, c.z, 0, -1/3⟩
  let q : Vec4 := if c.x < p.x then ⟨p.x, p.y, p.w, c.x⟩ else ⟨c.x, p.y, p.z, p.x⟩
  let d := q.x - min q.w q.y
  let e : ℝ := 1e-10
  ⟨|q.z + (q.w - q.y) / (6 * d + e)|, d / (q.x + e), q.x⟩

/-- The p == 2.0 fast path of the iteration, shared by all shaders:
float nextR = dot(z, z*vec2(1.0,-1.0));
z = c + vec2(nextR, 2.0*z.x*z.y); -/
def fastSquareStep (c z : Vec2) : Vec2 :=
  ⟨c.x + (z.x * z.x + z.y * (-z.y)), c.y + 2 * z.x * z.y⟩

/-- The general polar-form path of the iteration, shared by all shaders:
float scale = pow(dot(z,z), 0.5*p);
float theta = p * atan2(z.y, z.x);
z = c + vec2(scale*cos(theta), scale*sin(theta)); -/
def polarStep (c : Vec2) (p : ℝ) (z : Vec2) : Vec2 :=
  let scale := (dot2 z z) ^ (0.5 * p)
  let theta := p * atan2 z.y z.x
  ⟨c.x + scale * Real.cos theta, c.y + scale * Real.sin theta⟩

/-- One application of z = z^p + c as each shader writes it:
if (p == 2.0) { ...fast path... } else { ...polar path... }. -/
def juliaStep (c : Vec2) (p : ℝ) (z : Vec2) : Vec2 :=
  if p = 2 then fastSquareStep c z else polarStep c p z

/-- Pixel-to-plane mapping shared by all three shaders:
vec2 zRange = zoom * vec2(5.00000000, 4.00000000);
vec2 leftBottom = center - .5 * zRange;
vec2 z = (leftBottom + uv * zRange);
Here zoom is the uniform already in linear form. -/
def pixelToPlane (center : Vec2) (zoom : ℝ) (uv : Vec2) : Vec2 :=
  ⟨center.x - 0.5 * (zoom * 5) + uv.x * (zoom * 5),
   center.y - 0.5 * (zoom * 4) + uv.y * (zoom * 4)⟩

/-- The zoom uniform each React component computes from its zoom prop:
uniforms={{ ..., zoom: 2**(-zoom), ... }}. -/
def zoomUniform (zoomPow : ℝ) : ℝ := (2 : ℝ) ^ (-zoomPow)

/-- Modelled from the spec: the inverse pixel recovery of section 8,
uv = (z0 - bottomLeft) / extent with extent = 2^(-zoomPower) * (5, 4);
the repository itself contains no inverse-mapping code. -/
def planeToPixelSpec (center : Vec2) (zoomPow : ℝ) (z0 : Vec2) : Vec2 :=
  ⟨(z0.x - (center.x - 0.5 * (zoomUniform zoomPow * 5))) / (zoomUniform zoomPow * 5),
   (z0.y - (center.y - 0.5 * (zoomUniform zoomPow * 4))) / (zoomUniform zoomPow * 4)⟩

/-- Result of the pure-color shader's loop: the fragment-local variables z,
lastZ and iter as they stand when control reaches the code after the loop. -/
structure JuliaResult where
  z : Vec2
  lastZ : Vec2
  iter : ℕ

/-- Result of the image/field shaders' loops: z, lastZ, gl_FragColor and iter
as they stand when control reaches the code after the loop. -/
structure AccumResult where
  z : Vec2
  lastZ : Vec2
  frag : Vec4
  iter : ℕ

/-- The loop of julia-fractal.tsx (lines 32-50).  iter is initialized to 65
before the loop; running out of fuel without a break leaves it at 65.
for (int i=0; i<64; ++i) {
  ...z = z^p + c...
  if (length(z) > 4.0) { iter = i; break; }
  lastZ = z;
} -/
def juliaLoop (c : Vec2) (p : ℝ) : ℕ → ℕ → Vec2 → Vec2 → JuliaResult
  | 0, _i, z, lastZ => ⟨z, lastZ, 65⟩
  | fuel + 1, i, z, lastZ =>
    let zn := juliaStep c p z
    if 4 < Real.sqrt (dot2 zn zn) then ⟨zn, lastZ, i⟩
    else juliaLoop c p fuel (i + 1) zn zn

/-- Fragment entry point of julia-fractal.tsx (main, lines 27-59). -/
def juliaMain (center : Vec2) (zoom : ℝ) (c : Vec2) (p : ℝ) (uv : Vec2) : Vec4 :=
  let z0 := pixelToPlane center zoom uv
  let st := juliaLoop c p 64 0 z0 z0
  if st.iter = 65 then ⟨0, 0, 0, 1⟩
  else
    let f1 := Real.log (dot2 st.z st.z)
    let fiter := if 0 ≤ f1 then (st.iter : ℝ) - Real.log f1 / Real.log 2
                 else f1 + (st.iter : ℝ)
    let striping := if 0.5 ≤ glslMod fiter 1 then (1 : ℝ) else 0.8
    let rgb := hsv2rgb ⟨fiter / 64, 0.8, 0.8⟩
    ⟨striping * rgb.x, striping * rgb.y, striping * rgb.z, striping * 1⟩

/-- The loop of julia-image-fractal.tsx (lines 36-58).  gl_FragColor starts at
(0,0,0,1); each iteration samples the image at uvNow = z*(.2,.25)+(.5,.5),
adds .01*mix(gl_FragColor.rgb, rgb, mag2i) to gl_FragColor.rgb, steps z, and
breaks with iter = i when dot(z,z) > 10. -/
def imageLoop (tex : Vec2 → Vec3) (c : Vec2) (p : ℝ) :
    ℕ → ℕ → Vec2 → Vec2 → Vec4 → AccumResult
  | 0, _i, z, lastZ, frag => ⟨z, lastZ, frag, 65⟩
  | fuel + 1, i, z, lastZ, frag =>
    let rgb := tex ⟨z.x * 0.2 + 0.5, z.y * 0.25 + 0.5⟩
    let mag2i := glslClamp (1 / max 1 (0.35 * dot2 z z)) 0 1
    let fragn : Vec4 := ⟨frag.x + 0.01 * glslMix frag.x rgb.x mag2i,
                         frag.y + 0.01 * glslMix frag.y rgb.y mag2i,
                         frag.z + 0.01 * glslMix frag.z rgb.z mag2i, frag.w⟩
    let zn := juliaStep c p z
    if 10 < dot2 zn zn then ⟨zn, lastZ, fragn, i⟩
    else imageLoop tex c p fuel (i + 1) zn zn fragn

/-- Fragment entry point of julia-image-fractal.tsx (main, lines 28-67). -/
def imageMain (tex : Vec2 → Vec3) (center : Vec2) (zoom : ℝ) (c : Vec2) (p : ℝ)
    (uv : Vec2) : Vec4 :=
  let z0 := pixelToPlane center zoom uv
  let st := imageLoop tex c p 64 0 z0 z0 ⟨0, 0, 0, 1⟩
  if st.iter = 65 then ⟨0, 0, 0, 1⟩
  else
    let f1 := Real.log (dot2 st.z st.z)
    let fiter := if 0 ≤ f1 then (st.iter : ℝ) - Real.log f1 / Real.log 2
                 else f1 + (st.iter : ℝ)
    let scale := 65 / fiter
    ⟨st.frag.x * scale, st.frag.y * scale, st.frag.z * scale, st.frag.w * 1⟩

/-- The bindings in scope when a user-supplied fieldExpr is evaluated inside
the field shader's loop (p0 is the value the local p was just assigned). -/
structure FieldEnv where
  uv : Vec2
  c : Vec2
  z : Vec2
  z0 : Vec2
  lastZ : Vec2
  rgb : Vec3
  hsv : Vec3
  glFragColor : Vec4
  i : ℕ
  mag2i : ℝ
  p0 : ℝ
  q : ℝ
  r : ℝ

/-- JuliaFieldFractal's JS default for the iteration bound: the template uses
the truthy expression (maxIterations || 64), so 0 and undefined both give 64. -/
def effMaxIter : Option ℕ → ℕ
  | none => 64
  | some m => if m = 0 then 64 else m

/-- The loop of julia-field-fractal.tsx (lines 93-129), for a kernel compiled
with iteration bound n = (maxIterations || 64).  Per iteration: sample the
image at uvNow, accumulate .01*mix(gl_FragColor.rgb, rgb, mag2i) into
gl_FragColor.rgb, compute p (p0, or q + (r-q)*fieldExpr(...) when a fieldExpr
was spliced in), set lastZ = z, step z, and break with iter = i when
dot(z,z) > 10.  iter was initialized to n + 1, which is what fuel
exhaustion leaves behind. -/
def fieldLoop (tex : Vec2 → Vec3) (fe : Option (FieldEnv → ℝ)) (uv z0 c : Vec2)
    (p0 q r : ℝ) (n : ℕ) : ℕ → ℕ → Vec2 → Vec2 → Vec4 → AccumResult
  | 0, _i, z, lastZ, frag => ⟨z, lastZ, frag, n + 1⟩
  | fuel + 1, i, z, lastZ, frag =>
    let rgb := tex ⟨z.x * 0.2 + 0.5, z.y * 0.25 + 0.5⟩
    let mag2i := glslClamp (1 / max 1 (0.35 * dot2 z z)) 0 1
    let fragn : Vec4 := ⟨frag.x + 0.01 * glslMix frag.x rgb.x mag2i,
                         frag.y + 0.01 * glslMix frag.y rgb.y mag2i,
                         frag.z + 0.01 * glslMix frag.z rgb.z mag2i, frag.w⟩
    let p := match fe with
      | none => p0
      | some f =>
          q + (r - q) * f ⟨uv, c, z, z0, lastZ, rgb, rgb2hsv rgb, fragn, i, mag2i, p0, q, r⟩
    let lastZn := z
    let zn := juliaStep c p z
    if 10 < dot2 zn zn then ⟨zn, lastZn, fragn, i⟩
    else fieldLoop tex fe uv z0 c p0 q r n fuel (i + 1) zn lastZn fragn

/-- Fragment entry point of julia-field-fractal.tsx (main, lines 83-141) for a
kernel compiled from the given fieldExpr and maxIterations props.  After the
loop: if (iter == n) output black, else compute fiter (unused by this shader's
tail) and scale, and multiply gl_FragColor by vec4(scale, scale, scale, 1). -/
def fieldMain (tex : Vec2 → Vec3) (fe : Option (FieldEnv → ℝ)) (mi : Option ℕ)
    (center : Vec2) (zoom : ℝ) (c : Vec2) (p0 q r : ℝ) (uv : Vec2) : Vec4 :=
  let n := effMaxIter mi
  let z0 := pixelToPlane center zoom uv
  let st := fieldLoop tex fe uv z0 c p0 q r n n 0 z0 z0 ⟨0, 0, 0, 1⟩
  if st.iter = n then ⟨0, 0, 0, 1⟩
  else
    let f1 := Real.log (dot2 st.z st.z)
    let _fiter := if 0 ≤ f1 then (st.iter : ℝ) - Real.log f1 / Real.log 2
                  else f1 + (st.iter : ℝ)
    let scale := if st.iter = 0 then (100 : ℝ) else 1 / (0.01 * (st.iter : ℝ))
    ⟨st.frag.x * scale, st.frag.y * scale, st.frag.z * scale, st.frag.w * 1⟩

/-- The JuliaFractal component: passes the zoom prop as 2**(-zoom). -/
def JuliaFractal (center : Vec2) (zoomPow : ℝ) (c : Vec2) (p : ℝ) (uv : Vec2) : Vec4 :=
  juliaMain center (zoomUniform zoomPow) c p uv

/-- The JuliaImageFractal component: passes the zoom prop as 2**(-zoom). -/
def JuliaImageFractal (tex : Vec2 → Vec3) (center : Vec2) (zoomPow : ℝ) (c : Vec2)
    (p : ℝ) (uv : Vec2) : Vec4 :=
  imageMain tex center (zoomUniform zoomPow) c p uv

/-- The JuliaFieldFractal component: passes the zoom prop as 2**(-zoom) and
compiles the kernel from fieldExpr and maxIterations. -/
def JuliaFieldFractal (tex : Vec2 → Vec3) (fe : Option (FieldEnv → ℝ))
    (mi : Option ℕ) (center : Vec2) (zoomPow : ℝ) (c : Vec2) (p0 q r : ℝ)
    (uv : Vec2) : Vec4 :=
  fieldMain tex fe mi center (zoomUniform zoomPow) c p0 q r uv

/-- An all-white source image, used as a concrete texture in counterexamples. -/
def whiteTex : Vec2 → Vec3 := fun _ => ⟨1, 1, 1⟩

/-- Modelled from the spec: the claimed accumulation update of section 4.2a,
accumColor += 0.01 * (rgb - accumColor) * w with
w = clamp(1 / max(1, 0.35 * dot(z,z)), 0, 1). -/
def accumUpdateSpec (acc rgb : Vec3) (z : Vec2) : Vec3 :=
  let w := glslClamp (1 / max 1 (0.35 * dot2 z z)) 0 1
  ⟨acc.x + 0.01 * (rgb.x - acc.x) * w,
   acc.y + 0.01 * (rgb.y - acc.y) * w,
   acc.z + 0.01 * (rgb.z - acc.z) * w⟩

theorem glslMix_one (a b : ℝ) : glslMix a b 1 = b := by
  simp [glslMix]

theorem glslMix_zero (a b : ℝ) : glslMix a b 0 = a := by
  simp [glslMix]

theorem mk_complex_ne_zero {x y : ℝ} (h : ¬(x = 0 ∧ y = 0)) : (⟨x, y⟩ : ℂ) ≠ 0 := by
  intro hz
  rw [Complex.ext_iff] at hz
  exact h ⟨by simpa using hz.1, by simpa using hz.2⟩

theorem abs_mk_complex (x y : ℝ) :
    Complex.abs ⟨x, y⟩ = Real.sqrt (x ^ 2 + y ^ 2) := by
  rw [Complex.abs_apply, Complex.normSq_mk]
  ring_nf

/-- Core geometric property of the shaders' custom atan2: its cosine and sine
are those of the direction of the vector (x, y). -/
theorem atan2_cos_sin_mul (x y : ℝ) (h : ¬(x = 0 ∧ y = 0)) :
    Real.cos (atan2 y x) * Real.sqrt (x ^ 2 + y ^ 2) = x ∧
    Real.sin (atan2 y x) * Real.sqrt (x ^ 2 + y ^ 2) = y := by
  have hz : (⟨x, y⟩ : ℂ) ≠ 0 := mk_complex_ne_zero h
  have hw : (⟨y, x⟩ : ℂ) ≠ 0 := by
    refine mk_complex_ne_zero ?_
    intro hyx
    exact h ⟨hyx.2, hyx.1⟩
  have hpos : 0 < x ^ 2 + y ^ 2 := by
    rcases not_and_or.mp h with hx | hy
    · have h1 : 0 < x ^ 2 := by positivity
      nlinarith [sq_nonneg y]
    · have h1 : 0 < y ^ 2 := by positivity
      nlinarith [sq_nonneg x]
  have hr : Real.sqrt (x ^ 2 + y ^ 2) ≠ 0 := ne_of_gt (Real.sqrt_pos.mpr hpos)
  unfold atan2
  by_cases hcase : |y| < |x|
  · rw [if_pos hcase, glslMix_one]
    unfold glslAtan
    constructor
    · rw [Complex.cos_arg hz]
      show x / Complex.abs ⟨x, y⟩ * Real.sqrt (x ^ 2 + y ^ 2) = x
      rw [abs_mk_complex]
      field_simp
    · rw [Complex.sin_arg]
      show y / Complex.abs ⟨x, y⟩ * Real.sqrt (x ^ 2 + y ^ 2) = y
      rw [abs_mk_complex]
      field_simp
  · rw [if_neg hcase, glslMix_zero]
    unfold glslAtan
    constructor
    · rw [Real.cos_pi_div_two_sub, Complex.sin_arg]
      show x / Complex.abs ⟨y, x⟩ * Real.sqrt (x ^ 2 + y ^ 2) = x
      rw [abs_mk_complex, show y ^ 2 + x ^ 2 = x ^ 2 + y ^ 2 by ring]
      field_simp
    · rw [Real.sin_pi_div_two_sub, Complex.cos_arg hw]
      show y / Complex.abs ⟨y, x⟩ * Real.sqrt (x ^ 2 + y ^ 2) = y
      rw [abs_mk_complex, show y ^ 2 + x ^ 2 = x ^ 2 + y ^ 2 by ring]
      field_simp

/-- C4 (corrected, counterexample): at (x, y) = (-1, -2) the custom atan2
returns 3*pi/2 - arctan(1/2), which is greater than pi, hence not the
principal angle in (-pi, pi]. -/
theorem atan2_exceeds_pi : Real.pi < atan2 (-2) (-1) := by
  unfold atan2
  rw [if_neg (by norm_num : ¬(|(-2 : ℝ)| < |(-1 : ℝ)|)), glslMix_zero]
  unfold glslAtan
  have habs : Complex.abs ⟨-2, -1⟩ = Real.sqrt 5 := by
    rw [abs_mk_complex]
    norm_num
  have harg : Complex.arg ⟨-2, -1⟩ = Real.arcsin (1 / Real.sqrt 5) - Real.pi := by
    rw [Complex.arg_of_re_neg_of_im_neg (x := (⟨-2, -1⟩ : ℂ))
      (show (-2 : ℝ) < 0 by norm_num) (show (-1 : ℝ) < 0 by norm_num), habs]
    norm_num [Complex.neg_im]
  rw [harg]
  have hlt : Real.arcsin (1 / Real.sqrt 5) < Real.pi / 2 := by
    rw [Real.arcsin_lt_pi_div_two, div_lt_one (by positivity)]
    exact (Real.lt_sqrt (by norm_num)).mpr (by norm_num)
  linarith [Real.pi_pos]

/-- C4 (corrected, amended): for every (x, y) distinct from the origin, the
custom atan2 returns an angle whose cosine and sine are proportional to x and
y with the (positive) factor 1/|(x,y)|; it is the principal four-quadrant
angle only up to an additive multiple of 2*pi. -/
theorem atan2_cos_sin_correct (x y : ℝ) (h : ¬(x = 0 ∧ y = 0)) :
    Real.cos (atan2 y x) * Real.sqrt (x ^ 2 + y ^ 2) = x ∧
    Real.sin (atan2 y x) * Real.sqrt (x ^ 2 + y ^ 2) = y :=
  atan2_cos_sin_mul x y h

/-- Witness for atan2_cos_sin_correct at (x, y) = (1, 0). -/
theorem atan2_cos_sin_correct_witness :
    Real.cos (atan2 0 1) * Real.sqrt (1 ^ 2 + 0 ^ 2) = 1 ∧
    Real.sin (atan2 0 1) * Real.sqrt (1 ^ 2 + 0 ^ 2) = 0 :=
  atan2_cos_sin_correct 1 0 (by norm_num)

/-- C6 (confirmed): the p = 2.0 fast path is what the shaders execute at
p = 2, and one application of it agrees exactly (over the reals) with one
application of the general polar-form path evaluated at p = 2. -/
theorem fast_path_eq_polar_path (c z : Vec2) :
    juliaStep c 2 z = fastSquareStep c z ∧ fastSquareStep c z = polarStep c 2 z := by
  refine ⟨by simp [juliaStep], ?_⟩
  unfold fastSquareStep polarStep
  rw [show (0.5 : ℝ) * 2 = 1 by norm_num, Real.rpow_one]
  by_cases h0 : z.x = 0 ∧ z.y = 0
  · apply Vec2.ext
    · show c.x + (z.x * z.x + z.y * -z.y) = c.x + dot2 z z * Real.cos (2 * atan2 z.y z.x)
      rw [h0.1, h0.2]
      simp [dot2, h0.1, h0.2]
    · show c.y + 2 * z.x * z.y = c.y + dot2 z z * Real.sin (2 * atan2 z.y z.x)
      rw [h0.1, h0.2]
      simp [dot2, h0.1, h0.2]
  · obtain ⟨hc, hs⟩ := atan2_cos_sin_mul z.x z.y h0
    have hr2 : Real.sqrt (z.x ^ 2 + z.y ^ 2) ^ 2 = z.x ^ 2 + z.y ^ 2 :=
      Real.sq_sqrt (by positivity)
    apply Vec2.ext
    · show c.x + (z.x * z.x + z.y * -z.y) = c.x + dot2 z z * Real.cos (2 * atan2 z.y z.x)
      rw [Real.cos_two_mul]
      unfold dot2
      linear_combination
        (-2 * (Real.cos (atan2 z.y z.x) * Real.sqrt (z.x ^ 2 + z.y ^ 2) + z.x)) * hc +
        (2 * Real.cos (atan2 z.y z.x) ^ 2) * hr2
    · show c.y + 2 * z.x * z.y = c.y + dot2 z z * Real.sin (2 * atan2 z.y z.x)
      rw [Real.sin_two_mul]
      unfold dot2
      linear_combination
        (-2 * Real.sin (atan2 z.y z.x) * Real.sqrt (z.x ^ 2 + z.y ^ 2)) * hc +
        (-2 * z.x) * hs +
        (2 * Real.sin (atan2 z.y z.x) * Real.cos (atan2 z.y z.x)) * hr2

theorem fieldLoop_frag_w (tex : Vec2 → Vec3) (fe : Option (FieldEnv → ℝ))
    (uv z0 c : Vec2) (p0 q r : ℝ) (n : ℕ) :
    ∀ fuel i z lastZ frag,
      (fieldLoop tex fe uv z0 c p0 q r n fuel i z lastZ frag).frag.w = frag.w := by
  intro fuel
  induction fuel with
  | zero => intro i z lastZ frag; rfl
  | succ f ih =>
    intro i z lastZ frag
    simp only [fieldLoop]
    split
    · rfl
    · exact ih _ _ _ _

theorem imageLoop_frag_w (tex : Vec2 → Vec3) (c : Vec2) (p : ℝ) :
    ∀ fuel i z lastZ frag, (imageLoop tex c p fuel i z lastZ frag).frag.w = frag.w := by
  intro fuel
  induction fuel with
  | zero => intro i z lastZ frag; rfl
  | succ f ih =>
    intro i z lastZ frag
    simp only [imageLoop]
    split
    · rfl
    · exact ih _ _ _ _

/-- C2 (corrected, amended): every output pixel of the image and field
variants has alpha exactly 1, and so does the pure-color variant's interior
branch; but the pure-color variant's escaped branch multiplies the whole
vec4, alpha included, by the striping factor, so there the alpha is either
1 or 0.8. -/
theorem alpha_values (tex : Vec2 → Vec3) (fe : Option (FieldEnv → ℝ)) (mi : Option ℕ)
    (center : Vec2) (zoom : ℝ) (c : Vec2) (p p0 q r : ℝ) (uv : Vec2) :
    (fieldMain tex fe mi center zoom c p0 q r uv).w = 1 ∧
    (imageMain tex center zoom c p uv).w = 1 ∧
    ((juliaMain center zoom c p uv).w = 1 ∨ (juliaMain center zoom c p uv).w = 0.8) := by
  refine ⟨?_, ?_, ?_⟩
  · simp only [fieldMain]
    split
    · rfl
    · show (fieldLoop tex fe uv _ c p0 q r _ _ 0 _ _ ⟨0, 0, 0, 1⟩).frag.w * 1 = 1
      rw [fieldLoop_frag_w]
      norm_num
  · simp only [imageMain]
    split
    · rfl
    · show (imageLoop tex c p 64 0 _ _ ⟨0, 0, 0, 1⟩).frag.w * 1 = 1
      rw [imageLoop_frag_w]
      norm_num
  · simp only [juliaMain]
    split
    · left; rfl
    · split <;> split <;>
        first
          | exact Or.inl (by norm_num : (1 : ℝ) * 1 = 1)
          | exact Or.inr (by norm_num : (0.8 : ℝ) * 1 = 0.8)

theorem juliaStep_zero : juliaStep ⟨0, 0⟩ 2 ⟨0, 0⟩ = ⟨0, 0⟩ := by
  apply Vec2.ext <;> simp [juliaStep, fastSquareStep]

theorem dot2_zero : dot2 ⟨0, 0⟩ ⟨0, 0⟩ = 0 := by
  simp [dot2]

theorem juliaLoop_zero : ∀ fuel i,
    juliaLoop ⟨0, 0⟩ 2 fuel i ⟨0, 0⟩ ⟨0, 0⟩ = ⟨⟨0, 0⟩, ⟨0, 0⟩, 65⟩ := by
  intro fuel
  induction fuel with
  | zero => intro i; rfl
  | succ f ih =>
    intro i
    have hno : ¬ (4 : ℝ) < Real.sqrt (dot2 ⟨0, 0⟩ ⟨0, 0⟩) := by
      rw [dot2_zero, Real.sqrt_zero]
      norm_num
    simp only [juliaLoop, juliaStep_zero]
    rw [if_neg hno]
    exact ih (i + 1)

theorem imageLoop_zero (tex : Vec2 → Vec3) : ∀ fuel i (frag : Vec4),
    (imageLoop tex ⟨0, 0⟩ 2 fuel i ⟨0, 0⟩ ⟨0, 0⟩ frag).iter = 65 ∧
    (imageLoop tex ⟨0, 0⟩ 2 fuel i ⟨0, 0⟩ ⟨0, 0⟩ frag).z = ⟨0, 0⟩ := by
  intro fuel
  induction fuel with
  | zero => intro i frag; exact ⟨rfl, rfl⟩
  | succ f ih =>
    intro i frag
    have hno : ¬ (10 : ℝ) < dot2 ⟨0, 0⟩ ⟨0, 0⟩ := by
      rw [dot2_zero]; norm_num
    simp only [imageLoop, juliaStep_zero]
    rw [if_neg hno]
    exact ih (i + 1) _

theorem fieldLoop_zero (tex : Vec2 → Vec3) (uv z0 : Vec2) (q r : ℝ) (n : ℕ) :
    ∀ fuel i (frag : Vec4),
    (fieldLoop tex none uv z0 ⟨0, 0⟩ 2 q r n fuel i ⟨0, 0⟩ ⟨0, 0⟩ frag).iter = n + 1 ∧
    (fieldLoop tex none uv z0 ⟨0, 0⟩ 2 q r n fuel i ⟨0, 0⟩ ⟨0, 0⟩ frag).z = ⟨0, 0⟩ := by
  intro fuel
  induction fuel with
  | zero => intro i frag; exact ⟨rfl, rfl⟩
  | succ f ih =>
    intro i frag
    have hno : ¬ (10 : ℝ) < dot2 ⟨0, 0⟩ ⟨0, 0⟩ := by
      rw [dot2_zero]; norm_num
    simp only [fieldLoop, juliaStep_zero]
    rw [if_neg hno]
    exact ih (i + 1) _

theorem fieldLoop_white_zero (uv z0 : Vec2) (q r : ℝ) (n : ℕ) :
    ∀ fuel i (frag : Vec4),
    fieldLoop whiteTex none uv z0 ⟨0, 0⟩ 2 q r n fuel i ⟨0, 0⟩ ⟨0, 0⟩ frag =
      ⟨⟨0, 0⟩, ⟨0, 0⟩,
       ⟨frag.x + 0.01 * fuel, frag.y + 0.01 * fuel, frag.z + 0.01 * fuel, frag.w⟩,
       n + 1⟩ := by
  intro fuel
  induction fuel with
  | zero => intro i frag; simp [fieldLoop]
  | succ f ih =>
    intro i frag
    have hno : ¬ (10 : ℝ) < dot2 ⟨0, 0⟩ ⟨0, 0⟩ := by
      rw [dot2_zero]; norm_num
    have hmag : glslClamp (1 / max 1 (0.35 * dot2 ⟨0, 0⟩ ⟨0, 0⟩)) 0 1 = 1 := by
      rw [dot2_zero]
      norm_num [glslClamp]
    simp only [fieldLoop, juliaStep_zero, whiteTex, hmag, glslMix_one]
    rw [if_neg hno, ih (i + 1)]
    congr 1 <;> (push_cast; ring_nf)

theorem imageLoop_white_zero : ∀ fuel i (frag : Vec4),
    imageLoop whiteTex ⟨0, 0⟩ 2 fuel i ⟨0, 0⟩ ⟨0, 0⟩ frag =
      ⟨⟨0, 0⟩, ⟨0, 0⟩,
       ⟨frag.x + 0.01 * fuel, frag.y + 0.01 * fuel, frag.z + 0.01 * fuel, frag.w⟩,
       65⟩ := by
  intro fuel
  induction fuel with
  | zero => intro i frag; simp [imageLoop]
  | succ f ih =>
    intro i frag
    have hno : ¬ (10 : ℝ) < dot2 ⟨0, 0⟩ ⟨0, 0⟩ := by
      rw [dot2_zero]; norm_num
    have hmag : glslClamp (1 / max 1 (0.35 * dot2 ⟨0, 0⟩ ⟨0, 0⟩)) 0 1 = 1 := by
      rw [dot2_zero]
      norm_num [glslClamp]
    simp only [imageLoop, juliaStep_zero, whiteTex, hmag, glslMix_one]
    rw [if_neg hno, ih (i + 1)]
    congr 1 <;> (push_cast; ring_nf)

theorem pixelToPlane_center_zero (zoom : ℝ) :
    pixelToPlane ⟨0, 0⟩ zoom ⟨0.5, 0.5⟩ = ⟨0, 0⟩ := by
  apply Vec2.ext <;> (dsimp [pixelToPlane]; ring)

/-- The concrete non-escaping field-variant run used by several results:
defaults (maxIterations omitted, so n = 64), all-white image, no fieldExpr,
center (0,0), zoom uniform 1, c = (0,0), p = 2, center pixel uv = (0.5, 0.5);
the mapped point is z0 = (0,0) and the orbit never escapes. -/
theorem fieldMain_white_value :
    fieldMain whiteTex none none ⟨0, 0⟩ 1 ⟨0, 0⟩ 2 2 2 ⟨0.5, 0.5⟩ =
      ⟨64 / 65, 64 / 65, 64 / 65, 1⟩ := by
  simp only [fieldMain, effMaxIter, pixelToPlane_center_zero, fieldLoop_white_zero]
  norm_num

/-- C1 (code_bug): with the all-white image, default iteration budget and the
center pixel of the standard view of c = (0,0), p = 2, the field shader's
orbit never escapes (iter keeps the sentinel 64 + 1), yet the output is
(64/65, 64/65, 64/65, 1), not opaque black: the post-loop interior test
compares iter against 64, which the sentinel 65 never equals. -/
theorem field_unescaped_not_black :
    (fieldLoop whiteTex none ⟨0.5, 0.5⟩ ⟨0, 0⟩ ⟨0, 0⟩ 2 2 2 64 64 0 ⟨0, 0⟩ ⟨0, 0⟩
        ⟨0, 0, 0, 1⟩).iter = 64 + 1 ∧
    fieldMain whiteTex none none ⟨0, 0⟩ 1 ⟨0, 0⟩ 2 2 2 ⟨0.5, 0.5⟩ ≠ ⟨0, 0, 0, 1⟩ := by
  constructor
  · exact (fieldLoop_zero whiteTex ⟨0.5, 0.5⟩ ⟨0, 0⟩ 2 2 64 64 0 ⟨0, 0, 0, 1⟩).1
  · rw [fieldMain_white_value]
    intro h
    have hx := congrArg Vec4.x h
    norm_num at hx

/-- C5 (code_bug): at the same never-escaping configuration the field shader
reaches the smooth-iteration branch (its loop result is the sentinel 65,
which differs from the interior test's 64 = effMaxIter none), and the value
dot(z,z) whose log that branch takes is 0, not strictly positive. -/
theorem field_log_argument_zero (tex : Vec2 → Vec3) (q r : ℝ) (frag : Vec4) :
    (fieldLoop tex none ⟨0.5, 0.5⟩ ⟨0, 0⟩ ⟨0, 0⟩ 2 q r 64 64 0 ⟨0, 0⟩ ⟨0, 0⟩
        frag).iter ≠ effMaxIter none ∧
    dot2 (fieldLoop tex none ⟨0.5, 0.5⟩ ⟨0, 0⟩ ⟨0, 0⟩ 2 q r 64 64 0 ⟨0, 0⟩ ⟨0, 0⟩
        frag).z
      (fieldLoop tex none ⟨0.5, 0.5⟩ ⟨0, 0⟩ ⟨0, 0⟩ 2 q r 64 64 0 ⟨0, 0⟩ ⟨0, 0⟩
        frag).z = 0 := by
  obtain ⟨hiter, hz⟩ := fieldLoop_zero tex ⟨0.5, 0.5⟩ ⟨0, 0⟩ q r 64 64 0 frag
  refine ⟨?_, ?_⟩
  · rw [hiter]
    simp [effMaxIter]
  · rw [hz, dot2_zero]

/-- C9 (code_bug): with p = 2 and c = (0,0) the orbit of z0 = (0,0) stays at
the origin forever and never triggers the escape test in any of the three
loops; the pure-color and basic image shaders classify the pixel as interior
and output opaque black, but the field shader does not (its interior branch
never fires), so it outputs a non-black color instead. -/
theorem origin_orbit_interior :
    (∀ n : ℕ, (juliaStep ⟨0, 0⟩ 2)^[n] ⟨0, 0⟩ = ⟨0, 0⟩) ∧
    (∀ fuel i, juliaLoop ⟨0, 0⟩ 2 fuel i ⟨0, 0⟩ ⟨0, 0⟩ = ⟨⟨0, 0⟩, ⟨0, 0⟩, 65⟩) ∧
    (∀ zoom, juliaMain ⟨0, 0⟩ zoom ⟨0, 0⟩ 2 ⟨0.5, 0.5⟩ = ⟨0, 0, 0, 1⟩) ∧
    (∀ tex zoom, imageMain tex ⟨0, 0⟩ zoom ⟨0, 0⟩ 2 ⟨0.5, 0.5⟩ = ⟨0, 0, 0, 1⟩) ∧
    (∀ tex q r n fuel i frag,
      (fieldLoop tex none ⟨0.5, 0.5⟩ ⟨0, 0⟩ ⟨0, 0⟩ 2 q r n fuel i ⟨0, 0⟩ ⟨0, 0⟩
        frag).iter = n + 1) ∧
    fieldMain whiteTex none none ⟨0, 0⟩ 1 ⟨0, 0⟩ 2 2 2 ⟨0.5, 0.5⟩ ≠ ⟨0, 0, 0, 1⟩ := by
  refine ⟨fun n => Function.iterate_fixed juliaStep_zero n, juliaLoop_zero, ?_, ?_, ?_, ?_⟩
  · intro zoom
    simp only [juliaMain, pixelToPlane_center_zero, juliaLoop_zero]
    rfl
  · intro tex zoom
    have h := (imageLoop_zero tex 64 0 ⟨0, 0, 0, 1⟩).1
    simp only [imageMain, pixelToPlane_center_zero]
    rw [if_pos h]
  · intro tex q r n fuel i frag
    exact (fieldLoop_zero tex ⟨0.5, 0.5⟩ ⟨0, 0⟩ q r n fuel i frag).1
  · rw [fieldMain_white_value]
    intro h
    have hx := congrArg Vec4.x h
    norm_num at hx

/-- C3 (corrected, counterexample): two iterations of the image shader's
loop on a never-escaping point under an all-white image accumulate 0.02 per
channel (the update is += .01*mix(accum, rgb, w)), whereas two applications
of the exponential-moving-average update claimed by the spec,
accumColor += 0.01 * (rgb - accumColor) * w, give 0.0199. -/
theorem accum_update_counterexample :
    (imageLoop whiteTex ⟨0, 0⟩ 2 2 0 ⟨0, 0⟩ ⟨0, 0⟩ ⟨0, 0, 0, 1⟩).frag.x = 0.02 ∧
    (accumUpdateSpec (accumUpdateSpec ⟨0, 0, 0⟩ ⟨1, 1, 1⟩ ⟨0, 0⟩) ⟨1, 1, 1⟩
      ⟨0, 0⟩).x = 0.0199 ∧
    (0.02 : ℝ) ≠ 0.0199 := by
  refine ⟨?_, ?_, by norm_num⟩
  · rw [imageLoop_white_zero]
    norm_num
  · norm_num [accumUpdateSpec, glslClamp, dot2_zero, dot2]

/-- C3 (corrected, amended): in both image-sampling loops, one iteration
updates the accumulated color by accumColor += 0.01 * mix(accumColor, rgb, w)
= 0.01 * ((1-w)*accumColor + w*rgb), with rgb sampled at
uvNow = z*(0.2,0.25)+(0.5,0.5) and w = clamp(1/max(1, 0.35*|z|^2), 0, 1);
the increment is the w-blend of the old accumulator and the sample, not the
damped difference 0.01*(rgb - accumColor)*w. -/
theorem accum_update_blend (tex : Vec2 → Vec3) (fe : Option (FieldEnv → ℝ))
    (uv z0 c : Vec2) (p p0 q r : ℝ) (n fuel i : ℕ) (z lastZ : Vec2) (frag : Vec4) :
    imageLoop tex c p (fuel + 1) i z lastZ frag =
      (let rgb := tex ⟨z.x * 0.2 + 0.5, z.y * 0.25 + 0.5⟩
       let w := glslClamp (1 / max 1 (0.35 * dot2 z z)) 0 1
       let fragn : Vec4 := ⟨frag.x + 0.01 * ((1 - w) * frag.x + w * rgb.x),
                            frag.y + 0.01 * ((1 - w) * frag.y + w * rgb.y),
                            frag.z + 0.01 * ((1 - w) * frag.z + w * rgb.z), frag.w⟩
       let zn := juliaStep c p z
       if 10 < dot2 zn zn then ⟨zn, lastZ, fragn, i⟩
       else imageLoop tex c p fuel (i + 1) zn zn fragn) ∧
    fieldLoop tex fe uv z0 c p0 q r n (fuel + 1) i z lastZ frag =
      (let rgb := tex ⟨z.x * 0.2 + 0.5, z.y * 0.25 + 0.5⟩
       let w := glslClamp (1 / max 1 (0.35 * dot2 z z)) 0 1
       let fragn : Vec4 := ⟨frag.x + 0.01 * ((1 - w) * frag.x + w * rgb.x),
                            frag.y + 0.01 * ((1 - w) * frag.y + w * rgb.y),
                            frag.z + 0.01 * ((1 - w) * frag.z + w * rgb.z), frag.w⟩
       let pe := match fe with
         | none => p0
         | some f =>
             q + (r - q) *
               f ⟨uv, c, z, z0, lastZ, rgb, rgb2hsv rgb, fragn, i, w, p0, q, r⟩
       let zn := juliaStep c pe z
       if 10 < dot2 zn zn then ⟨zn, z, fragn, i⟩
       else fieldLoop tex fe uv z0 c p0 q r n fuel (i + 1) zn z fragn) := by
  have hmix : ∀ a b t : ℝ, a + 0.01 * glslMix a b t = a + 0.01 * ((1 - t) * a + t * b) := by
    intro a b t
    unfold glslMix
    ring
  constructor
  · simp only [imageLoop, hmix]
  · simp only [fieldLoop, hmix]

theorem fieldLoop_const_expr (t : ℝ) (tex : Vec2 → Vec3) (uv z0 c : Vec2)
    (p0 q r : ℝ) (n : ℕ) : ∀ fuel i z lastZ frag,
    fieldLoop tex (some (fun _ => t)) uv z0 c p0 q r n fuel i z lastZ frag =
    fieldLoop tex none uv z0 c (q + (r - q) * t) q r n fuel i z lastZ frag := by
  intro fuel
  induction fuel with
  | zero => intro i z lastZ frag; rfl
  | succ f ih =>
    intro i z lastZ frag
    simp only [fieldLoop]
    split
    · rfl
    · exact ih _ _ _ _

/-- C7 (confirmed): compiling the field kernel with the constant fieldExpr 0
reproduces, pixel for pixel, the fixed-exponent kernel run at exponent q, and
the constant fieldExpr 1 reproduces exponent r, because the effective
exponent each iteration is p = q + (r - q) * fieldExpr. -/
theorem field_constant_expr_refines_fixed (tex : Vec2 → Vec3) (mi : Option ℕ)
    (center : Vec2) (zoom : ℝ) (c : Vec2) (p0 q r : ℝ) (uv : Vec2) :
    fieldMain tex (some (fun _ => 0)) mi center zoom c p0 q r uv =
      fieldMain tex none mi center zoom c q q r uv ∧
    fieldMain tex (some (fun _ => 1)) mi center zoom c p0 q r uv =
      fieldMain tex none mi center zoom c r q r uv := by
  have h0 : q + (r - q) * (0 : ℝ) = q := by ring
  have h1 : q + (r - q) * (1 : ℝ) = r := by ring
  constructor
  · simp only [fieldMain, fieldLoop_const_expr, h0]
  · simp only [fieldMain, fieldLoop_const_expr, h1]

/-- C8 (confirmed): the pixel-to-plane map z0 = (center - 0.5*extent) +
uv*extent with extent = 2^(-zoomPower) * (5, 4) is affinely invertible:
dividing back by the extent recovers uv exactly over the reals. -/
theorem pixel_plane_roundtrip (center : Vec2) (zoomPow : ℝ) (uv : Vec2) :
    planeToPixelSpec center zoomPow (pixelToPlane center (zoomUniform zoomPow) uv) = uv := by
  have h2 : (0 : ℝ) < zoomUniform zoomPow := Real.rpow_pos_of_pos (by norm_num) _
  have h5 : zoomUniform zoomPow * 5 ≠ 0 := by positivity
  have h4 : zoomUniform zoomPow * 4 ≠ 0 := by positivity
  apply Vec2.ext
  · dsimp [planeToPixelSpec, pixelToPlane]
    field_simp
  · dsimp [planeToPixelSpec, pixelToPlane]
    field_simp

/-- C10 (confirmed): the field component's kernel template defaults the
iteration bound with the truthy expression (maxIterations || 64), so both an
omitted maxIterations and maxIterations = 0 compile a kernel with bound 64 in
the loop and in the interior test; in particular, passing 0 behaves exactly
like passing 64 (it runs 64 iterations, not 0). -/
theorem maxIterations_default_truthy :
    effMaxIter none = 64 ∧ effMaxIter (some 0) = 64 ∧
    (∀ tex fe center zoom c p0 q r uv,
      fieldMain tex fe (some 0) center zoom c p0 q r uv =
        fieldMain tex fe (some 64) center zoom c p0 q r uv) ∧
    (∀ tex fe center zoom c p0 q r uv,
      fieldMain tex fe none center zoom c p0 q r uv =
        fieldMain tex fe (some 64) center zoom c p0 q r uv) :=
  ⟨rfl, rfl, fun _ _ _ _ _ _ _ _ _ => rfl, fun _ _ _ _ _ _ _ _ _ => rfl⟩

theorem log_199_pos : (0 : ℝ) < Real.log 19.4481 :=
  Real.log_pos (by norm_num)

theorem log_199_lt_four : Real.log (19.4481 : ℝ) < 4 := by
  have h1 : Real.log (19.4481 : ℝ) < Real.log (32 : ℝ) :=
    Real.log_lt_log (by norm_num) (by norm_num)
  have h2 : Real.log (32 : ℝ) = 5 * Real.log 2 := by
    rw [show (32 : ℝ) = 2 ^ (5 : ℕ) by norm_num, Real.log_pow]
    push_cast
    ring
  rw [h2] at h1
  nlinarith [Real.log_two_lt_d9]

theorem log_199_gt : (2.8303 : ℝ) < Real.log 19.4481 := by
  have h1 : Real.log ((2 : ℝ) ^ (49 : ℕ)) < Real.log ((19.4481 : ℝ) ^ (12 : ℕ)) :=
    Real.log_lt_log (by positivity) (by norm_num)
  rw [Real.log_pow, Real.log_pow] at h1
  push_cast at h1
  linarith [Real.log_two_gt_d9]

theorem loglog_199_lt : Real.log (Real.log (19.4481 : ℝ)) < 2 * Real.log 2 := by
  have h4 : Real.log (Real.log (19.4481 : ℝ)) < Real.log 4 :=
    Real.log_lt_log log_199_pos log_199_lt_four
  rw [show (4 : ℝ) = 2 ^ (2 : ℕ) by norm_num, Real.log_pow] at h4
  push_cast at h4
  linarith

theorem loglog_199_gt : 3 * Real.log 2 < 2 * Real.log (Real.log (19.4481 : ℝ)) := by
  have hLsq : (8 : ℝ) < Real.log 19.4481 ^ (2 : ℕ) := by
    have := log_199_gt
    have := log_199_pos
    nlinarith
  have h8 : Real.log ((2 : ℝ) ^ (3 : ℕ)) < Real.log (Real.log (19.4481 : ℝ) ^ (2 : ℕ)) := by
    apply Real.log_lt_log (by norm_num)
    calc ((2 : ℝ) ^ (3 : ℕ)) = 8 := by norm_num
    _ < Real.log 19.4481 ^ (2 : ℕ) := hLsq
  rw [Real.log_pow, Real.log_pow] at h8
  push_cast at h8
  linarith

theorem smooth_iter_value_floor :
    ⌊(0 : ℝ) - Real.log (Real.log 19.4481) / Real.log 2⌋ = -2 := by
  have hlog2 : (0 : ℝ) < Real.log 2 := Real.log_pos (by norm_num)
  have hdivle : Real.log (Real.log 19.4481) / Real.log 2 ≤ 2 := by
    rw [div_le_iff₀ hlog2]
    linarith [loglog_199_lt]
  have hdivgt : (3 / 2 : ℝ) < Real.log (Real.log 19.4481) / Real.log 2 := by
    rw [lt_div_iff₀ hlog2]
    linarith [loglog_199_gt]
  rw [Int.floor_eq_iff]
  constructor
  · push_cast
    linarith
  · push_cast
    linarith

theorem smooth_iter_mod_small :
    glslMod ((0 : ℝ) - Real.log (Real.log 19.4481) / Real.log 2) 1 < 0.5 := by
  have hlog2 : (0 : ℝ) < Real.log 2 := Real.log_pos (by norm_num)
  have hdivgt : (3 / 2 : ℝ) < Real.log (Real.log 19.4481) / Real.log 2 := by
    rw [lt_div_iff₀ hlog2]
    linarith [loglog_199_gt]
  unfold glslMod glslFloor
  rw [div_one, smooth_iter_value_floor]
  push_cast
  linarith

/-- C2 (corrected, counterexample): at center (0, 2.1), zoom uniform 1,
c = (0, 0), p = 2, the center pixel maps to z0 = (0, 2.1), escapes on the
very first iteration with |z|^2 = 19.4481, its smooth iteration value lands
in the striping = 0.8 band, and the pure-color shader multiplies the whole
vec4 by it: the output alpha is 0.8, not 1. -/
theorem julia_alpha_counterexample :
    (juliaMain ⟨0, 2.1⟩ 1 ⟨0, 0⟩ 2 ⟨0.5, 0.5⟩).w = 0.8 ∧ (0.8 : ℝ) ≠ 1 := by
  refine ⟨?_, by norm_num⟩
  have hz0 : pixelToPlane ⟨0, 2.1⟩ 1 ⟨0.5, 0.5⟩ = ⟨0, 2.1⟩ := by
    apply Vec2.ext <;> (dsimp [pixelToPlane]; norm_num)
  have hstep : juliaStep ⟨0, 0⟩ 2 ⟨0, 2.1⟩ = ⟨-4.41, 0⟩ := by
    apply Vec2.ext <;> norm_num [juliaStep, fastSquareStep]
  have hd : dot2 ⟨(-4.41 : ℝ), 0⟩ ⟨-4.41, 0⟩ = 19.4481 := by
    norm_num [dot2]
  have hesc : (4 : ℝ) < Real.sqrt (dot2 ⟨(-4.41 : ℝ), 0⟩ ⟨-4.41, 0⟩) := by
    rw [hd]
    exact (Real.lt_sqrt (by norm_num)).mpr (by norm_num)
  have hloop : juliaLoop ⟨0, 0⟩ 2 64 0 ⟨0, 2.1⟩ ⟨0, 2.1⟩ = ⟨⟨-4.41, 0⟩, ⟨0, 2.1⟩, 0⟩ := by
    rw [show (64 : ℕ) = 63 + 1 from rfl]
    simp only [juliaLoop, hstep]
    rw [if_pos hesc]
  simp only [juliaMain, hz0, hloop]
  rw [if_neg (show ¬(JuliaResult.mk ⟨-4.41, 0⟩ ⟨0, 2.1⟩ 0).iter = 65 by norm_num)]
  dsimp only
  rw [hd, if_pos (Real.log_nonneg (by norm_num : (1 : ℝ) ≤ 19.4481))]
  rw [if_neg (show ¬(0.5 : ℝ) ≤ glslMod ((0 : ℕ) - Real.log (Real.log 19.4481) / Real.log 2) 1 by
    push_cast
    exact not_le.mpr smooth_iter_mod_small)]
  norm_num

end JuliaGL
